import Mathlib

/-!
Shallow embedding of `src/code/core/Random.hpp` / `Random.cpp` (the `ally`
random-sampling utility).

The pseudo-random bit generator (`std::mt19937` in the source) is modelled by
the stream of raw 32-bit words it will emit: a `List Nat`, consumed from the
front.  The standard-library distribution objects the source instantiates
(`std::uniform_int_distribution`, `std::uniform_real_distribution`,
`std::discrete_distribution`) are external to the repository; they are
embedded according to their documented C++-standard semantics, on a canonical
2^32 grid for the real-valued ones.  Floating-point values are represented by
rationals.
-/

/-- Raw-word range of the `std::mt19937` engine: each raw draw is a 32-bit word. -/
def rawModulus : Nat := 2 ^ 32

/-- Generator state: the stream of raw words the engine will emit, consumed
from the front.  An exhausted stream emits 0 (a real engine never exhausts;
the `[]` case only keeps the model total). -/
def Generator : Type := List Nat

instance : DecidableEq Generator := by
  unfold Generator
  infer_instance

/-- One raw draw from the engine: the next 32-bit word and the advanced state. -/
def nextRaw (g : Generator) : Nat × Generator :=
  match g with
  | [] => (0, [])
  | r :: rest => (r % rawModulus, rest)

/-- `std::uniform_int_distribution<T>(a, b)` for signed integral `T`, embedded
from the C++ standard semantics: one draw produces an integer uniformly
distributed over the closed interval `[a, b]`, here realized as
`a + raw mod (b - a + 1)`. -/
def uniform_int_distribution (a b : Int) (g : Generator) : Int × Generator :=
  (a + ((nextRaw g).1 : Int) % (b - a + 1), (nextRaw g).2)

/-- `std::uniform_int_distribution<T>(a, b)` for unsigned integral `T`
(e.g. `size_t`), embedded from the C++ standard semantics over `Nat`. -/
def uniform_int_distributionU (a b : Nat) (g : Generator) : Nat × Generator :=
  (a + (nextRaw g).1 % (b - a + 1), (nextRaw g).2)

/-- `std::uniform_real_distribution<T>(a, b)`, embedded from the C++ standard
semantics: one draw produces `a + x * (b - a)` with `x` a canonical value in
`[0, 1)`, here realized on the engine's 2^32 grid as `raw / 2^32`. -/
def uniform_real_distribution (a b : ℚ) (g : Generator) : ℚ × Generator :=
  (a + (((nextRaw g).1 : ℚ) / (rawModulus : ℚ)) * (b - a), (nextRaw g).2)

/-- Inverse-CDF bucket selection for `std::discrete_distribution`: the first
index whose cumulative weight exceeds `u`. -/
def discretePick : List ℚ → ℚ → Nat
  | [], _ => 0
  | w :: ws, u => if u < w then 0 else discretePick ws (u - w) + 1

/-- `std::discrete_distribution<size_t>(weights)`, embedded from the C++
standard semantics: one draw produces index `i` with probability
`w_i / Σ w`, realized by inverse CDF on a canonical draw scaled by `Σ w`. -/
def discrete_distribution (weights : List ℚ) (g : Generator) : Nat × Generator :=
  (discretePick weights ((((nextRaw g).1 : ℚ) / (rawModulus : ℚ)) * weights.sum),
    (nextRaw g).2)

/-- Outcome of a collection-sampling operation: a value together with the
advanced generator state, or one of the two `ally_assert` failures that the
source can raise. -/
inductive SampleResult (α : Type) where
  | ok : α → Generator → SampleResult α
  | assertEmptyFailed : SampleResult α
  | assertEndFailed : SampleResult α
deriving DecidableEq

namespace RandomBase

/-- `RandomBase::uniform<T>()` (Random.hpp:113-121): a default-constructed
`std::uniform_int_distribution<T>`, whose C++-standard parameters are
`a = 0`, `b = numeric_limits<T>::max()`.  The integral type `T` is encoded by
its maximum value `tmax`. -/
def uniform (tmax : Int) (g : Generator) : Int × Generator :=
  uniform_int_distribution 0 tmax g

/-- `RandomBase::uniform<T>(to)` (Random.hpp:123-131) at `T = size_t`, the
instantiation `uniformFrom` uses: `std::uniform_int_distribution<T>(0, to)`. -/
def uniformTo (hi : Nat) (g : Generator) : Nat × Generator :=
  uniform_int_distributionU 0 hi g

/-- `RandomBase::uniform<T>(from, to)` (Random.hpp:133-141):
`std::uniform_int_distribution<T>(from, to)`. -/
def uniformRange (lo hi : Int) (g : Generator) : Int × Generator :=
  uniform_int_distribution lo hi g

/-- `RandomBase::probability<T>()` (Random.hpp:93-100):
`std::uniform_int_distribution<T>(0, 100)`. -/
def probability (g : Generator) : Int × Generator :=
  uniform_int_distribution 0 100 g

/-- `RandomBase::uniformf<T>()` (Random.hpp:143-154):
`std::uniform_real_distribution<T>(0, 1)` with no `nextafter` adjustment. -/
def uniformf (g : Generator) : ℚ × Generator :=
  uniform_real_distribution 0 1 g

/-- `RandomBase::uniformf<T>(to)` (Random.hpp:156-165):
`std::uniform_real_distribution<T>(0, nextafter(to, numeric_limits<T>::max()))`.
`std::nextafter` is a float-representability operation external to the
repository; it is kept abstract as the parameter `nextafterf` (the next
representable value above its argument). -/
def uniformfTo (nextafterf : ℚ → ℚ) (hi : ℚ) (g : Generator) : ℚ × Generator :=
  uniform_real_distribution 0 (nextafterf hi) g

/-- `RandomBase::uniformf<T>(from, to)` (Random.hpp:167-175):
`std::uniform_real_distribution<T>(from, to)`, with no `nextafter`
adjustment. -/
def uniformfRange (lo hi : ℚ) (g : Generator) : ℚ × Generator :=
  uniform_real_distribution lo hi g

/-- `RandomBase::probabilityf<T>()` (Random.hpp:102-111):
`std::uniform_real_distribution<T>(0, nextafter(1.f, numeric_limits<T>::max()))`,
with `std::nextafter` kept abstract as in `uniformfTo`. -/
def probabilityf (nextafterf : ℚ → ℚ) (g : Generator) : ℚ × Generator :=
  uniform_real_distribution 0 (nextafterf 1) g

/-- `RandomBase::yesNo()` (Random.hpp:87-91):
`static_cast<bool>(uniform<int>(0, 1, generator))`. -/
def yesNo (g : Generator) : Bool × Generator :=
  (decide ((uniform_int_distribution 0 1 g).1 ≠ 0), (uniform_int_distribution 0 1 g).2)

/-- `RandomBase::normalf<T>(mean, stddev)` (Random.hpp:78-85): constructs
`std::normal_distribution<T>{mean, stddev}` and draws once.  The normal
distribution's sampling algorithm is implementation-defined by the C++
standard (only its statistical law is fixed), so the draw is kept abstract as
the pure function `normalDist` from the two parameters and the engine state to
the drawn value and the advanced state. -/
def normalf (normalDist : ℚ → ℚ → Generator → ℚ × Generator)
    (mean stddev : ℚ) (g : Generator) : ℚ × Generator :=
  normalDist mean stddev g

/-- `RandomBase::triangularf<T>(a, b, c)` (Random.hpp:59-76).  `std::sqrt` is
external to the repository and is kept abstract as the parameter `sqrtf`;
the claims about this function concern the algebraic structure around it. -/
def triangularf (sqrtf : ℚ → ℚ) (a b c : ℚ) (g : Generator) : ℚ × Generator :=
  let p := uniformf g
  let u := p.1
  let f := (c - a) / (b - a)
  if u < f then
    (a + sqrtf (u * (b - a) * (c - a)), p.2)
  else
    (b - sqrtf ((1 - u) * (b - a) * (b - c)), p.2)

/-- `RandomBase::uniformFrom` (Random.hpp:212-233): assert the collection is
non-empty, draw `offset = uniform(size - 1)`, advance an iterator by `offset`,
assert the iterator is not `end()`, and return the element there. -/
def uniformFrom {α : Type} (collection : List α) (g : Generator) : SampleResult α :=
  if collection.isEmpty then
    SampleResult.assertEmptyFailed
  else
    match collection[(uniformTo (collection.length - 1) g).1]? with
    | some x => SampleResult.ok x (uniformTo (collection.length - 1) g).2
    | none => SampleResult.assertEndFailed

/-- `RandomBase::weightedFrom` (Random.hpp:189-206): draw
`offset = discrete_distribution(weights)`, advance an iterator by `offset`,
assert the iterator is not `end()`, and return the element there. -/
def weightedFrom {α : Type} (weights : List ℚ) (collection : List α)
    (g : Generator) : SampleResult α :=
  match collection[(discrete_distribution weights g).1]? with
  | some x => SampleResult.ok x (discrete_distribution weights g).2
  | none => SampleResult.assertEndFailed

/-- The Fisher-Yates pass of `std::shuffle`: for `i` from `size - 1` down
to 1, draw `j` uniformly over `[0, i]` and swap the elements at `i` and `j`
(the out-of-bounds guard is never taken when started at `size - 1`, since
swapping preserves the size; it only keeps the model total). -/
def shuffleAux {α : Type} : Nat → Array α → Generator → Array α × Generator
  | 0, arr, g => (arr, g)
  | i + 1, arr, g =>
    if h : i + 1 < arr.size ∧ (uniform_int_distributionU 0 (i + 1) g).1 < arr.size then
      shuffleAux i (arr.swap ⟨i + 1, h.1⟩ ⟨(uniform_int_distributionU 0 (i + 1) g).1, h.2⟩)
        (uniform_int_distributionU 0 (i + 1) g).2
    else
      shuffleAux i arr (uniform_int_distributionU 0 (i + 1) g).2

/-- `RandomBase::shuffle` (Random.hpp:177-187): `std::shuffle(first, last,
generator)`, the standard's Fisher-Yates-equivalent in-place uniform
permutation of the range. -/
def shuffle {α : Type} (arr : Array α) (g : Generator) : Array α × Generator :=
  if arr.size = 0 then (arr, g) else shuffleAux (arr.size - 1) arr g

end RandomBase

/-- A concrete stand-in for the abstract external normal-distribution sampler,
used to evaluate theorems at concrete inputs: returns the mean and advances
the engine by one raw draw. -/
def constantNormal (mean _stddev : ℚ) (g : Generator) : ℚ × Generator :=
  (mean, (nextRaw g).2)

/-- Follows the spec's words for the triangular algorithm (for comparison with
`RandomBase.triangularf`): draw `u` uniform via `uniformf`; let
`f = (c-a)/(b-a)`; if `u < f` return `a + sqrt(u*(b-a)*(c-a))`, otherwise
return `b - sqrt((1-u)*(b-a)*(b-c))`. -/
def triangularfSpec (sqrtf : ℚ → ℚ) (a b c : ℚ) (g : Generator) : ℚ × Generator :=
  let p := RandomBase.uniformf g
  let u := p.1
  let f := (c - a) / (b - a)
  if u < f then
    (a + sqrtf (u * (b - a) * (c - a)), p.2)
  else
    (b - sqrtf ((1 - u) * (b - a) * (b - c)), p.2)

/-- Outcome of calling a generator provider: whether an `ally_assert` fired,
and the generator reference handed back (absent when the assertion aborted). -/
structure ProviderOutcome where
  assertionFired : Bool
  generatorRef : Option Generator
deriving DecidableEq

/-- Modelled from the spec: the `std::mt19937_64` engine internals are outside
the repository, so a freshly seeded engine state is represented by the raw
stream it will emit, abstracted as a function of the seed word. -/
def mt19937_64_seeded (seed : Nat) : Generator :=
  [seed % 2 ^ 64]

/-- `ServerRandomTraits::generator()` (Random.cpp:12-18).  Modelled from the
spec: `ally_assert` comes from `Assertions.hpp`, which is not in the source
tree; per the spec an assertion failure is fatal (aborts) in fatal builds and
execution continues past it in non-fatal builds.  The function executes
`ally_assert(false, ...)` unconditionally, then constructs a generator seeded
from a `std::random_device` draw (`entropySeed`) and returns a reference to
it.  `fatalBuild` says whether assertions abort. -/
def ServerRandomTraits.generator (fatalBuild : Bool) (entropySeed : Nat) :
    ProviderOutcome :=
  if fatalBuild then
    { assertionFired := true, generatorRef := none }
  else
    { assertionFired := true, generatorRef := some (mt19937_64_seeded entropySeed) }

-- shared lemmas

theorem nextRaw_fst_lt (g : Generator) : (nextRaw g).1 < rawModulus := by
  cases g with
  | nil =>
    simp only [nextRaw, rawModulus]
    norm_num
  | cons r rest =>
    simpa only [nextRaw] using Nat.mod_lt r (show 0 < rawModulus by norm_num [rawModulus])

theorem uniform_fst_nonneg (tmax : ℤ) (g : Generator) (h : 0 ≤ tmax) :
    0 ≤ (RandomBase.uniform tmax g).1 := by
  unfold RandomBase.uniform uniform_int_distribution
  have hne : tmax - 0 + 1 ≠ 0 := by omega
  have := Int.emod_nonneg (((nextRaw g).1 : ℤ)) hne
  simpa using this

theorem uniform_fst_le (tmax : ℤ) (g : Generator) (h : 0 ≤ tmax) :
    (RandomBase.uniform tmax g).1 ≤ tmax := by
  unfold RandomBase.uniform uniform_int_distribution
  have hpos : (0 : ℤ) < tmax - 0 + 1 := by omega
  have := Int.emod_lt_of_pos (((nextRaw g).1 : ℤ)) hpos
  simp only [Prod.fst]
  omega

theorem uniformTo_fst_le (hi : Nat) (g : Generator) :
    (RandomBase.uniformTo hi g).1 ≤ hi := by
  unfold RandomBase.uniformTo uniform_int_distributionU
  have := Nat.mod_lt (nextRaw g).1 (show 0 < hi - 0 + 1 by omega)
  simp only [Prod.fst]
  omega

theorem uniformf_fst_lt_one (g : Generator) : (RandomBase.uniformf g).1 < 1 := by
  unfold RandomBase.uniformf uniform_real_distribution
  simp only [Prod.fst, sub_zero, mul_one, zero_add]
  rw [div_lt_one (by norm_num [rawModulus])]
  exact_mod_cast nextRaw_fst_lt g

-- C1

/-- C1, counterexample: `uniform<T>()` for signed 32-bit `T`
(`numeric_limits<T>::max() = 2^31 - 1`) can never produce the representable
value `-1`, because the default-constructed `std::uniform_int_distribution<T>`
ranges over `[0, numeric_limits<T>::max()]`, not over `T`'s full range. -/
theorem C1_uniform_counterexample :
    ¬ ∃ g : Generator, (RandomBase.uniform (2 ^ 31 - 1) g).1 = -1 := by
  rintro ⟨g, h⟩
  have := uniform_fst_nonneg (2 ^ 31 - 1) g (by norm_num)
  omega

/-- C1, amended: for integral `T` with maximum value `tmax` (any `tmax` with
`0 < tmax < 2^32`, covering signed 32-bit `int`), `uniform<T>()` produces a
value in `[0, tmax]`, and every value of `[0, tmax]` — but no negative value —
is a possible result. -/
theorem C1_uniform_range (tmax : ℤ) (h1 : 0 < tmax) (h2 : tmax < 2 ^ 32) :
    (∀ g : Generator,
      0 ≤ (RandomBase.uniform tmax g).1 ∧ (RandomBase.uniform tmax g).1 ≤ tmax) ∧
    (∀ v : ℤ, 0 ≤ v → v ≤ tmax →
      ∃ g : Generator, (RandomBase.uniform tmax g).1 = v) := by
  constructor
  · intro g
    exact ⟨uniform_fst_nonneg tmax g (le_of_lt h1), uniform_fst_le tmax g (le_of_lt h1)⟩
  · intro v hv0 hvt
    refine ⟨[v.toNat], ?_⟩
    unfold RandomBase.uniform uniform_int_distribution nextRaw
    simp only [Prod.fst]
    have hlt : v.toNat < rawModulus := by
      have : (v.toNat : ℤ) = v := Int.toNat_of_nonneg hv0
      have : (v.toNat : ℤ) < 2 ^ 32 := by omega
      exact_mod_cast this
    rw [Nat.mod_eq_of_lt hlt]
    have hcast : ((v.toNat : Nat) : ℤ) = v := Int.toNat_of_nonneg hv0
    rw [hcast]
    have : v % (tmax - 0 + 1) = v := Int.emod_eq_of_lt hv0 (by omega)
    omega

/-- C1, witness for `C1_uniform_range` at `tmax = 3`. -/
theorem C1_uniform_range_witness :
    (0 ≤ (RandomBase.uniform 3 [5]).1 ∧ (RandomBase.uniform 3 [5]).1 ≤ 3) ∧
    ∃ g : Generator, (RandomBase.uniform 3 g).1 = 2 := by
  obtain ⟨hr, he⟩ := C1_uniform_range 3 (by norm_num) (by norm_num)
  exact ⟨hr [5], he 2 (by norm_num) (by norm_num)⟩

-- C2

/-- C2: `uniformf<T>()` does NOT draw from (0, 1].  On a generator whose next
raw word is 0 it returns exactly 0 (so the lower bound 0 is attainable), and
on every generator state its value is strictly below 1 (so 1 is never
attained): `std::uniform_real_distribution<T>(0, 1)` ranges over [0, 1),
contradicting the source's own comment "correct range is (0, 1]". -/
theorem C2_uniformf_bounds :
    (RandomBase.uniformf [0]).1 = 0 ∧
    (∀ g : Generator, 0 ≤ (RandomBase.uniformf g).1) ∧
    (∀ g : Generator, (RandomBase.uniformf g).1 < 1) := by
  refine ⟨?_, ?_, uniformf_fst_lt_one⟩
  · unfold RandomBase.uniformf uniform_real_distribution nextRaw
    norm_num
  · intro g
    unfold RandomBase.uniformf uniform_real_distribution
    simp only [Prod.fst, sub_zero, mul_one, zero_add]
    positivity

-- C4

/-- C4: for every abstract square root, all `a <= c <= b` with `a < b`, and
every generator state, `triangularf(a, b, c)` computes its result by exactly
the spec's steps: draw `u = uniformf()`, let `f = (c-a)/(b-a)`, and return
`a + sqrt(u*(b-a)*(c-a))` when `u < f`, else `b - sqrt((1-u)*(b-a)*(b-c))`. -/
theorem C4_triangularf_steps (sqrtf : ℚ → ℚ) (a b c : ℚ)
    (_h1 : a ≤ c) (_h2 : c ≤ b) (_h3 : a < b) (g : Generator) :
    RandomBase.triangularf sqrtf a b c g = triangularfSpec sqrtf a b c g := rfl

/-- C4, witness for `C4_triangularf_steps` at `a = 0`, `b = 1`, `c = 1/2`. -/
theorem C4_triangularf_steps_witness :
    (0 : ℚ) ≤ 1 / 2 ∧ (1 / 2 : ℚ) ≤ 1 ∧ (0 : ℚ) < 1 ∧
    RandomBase.triangularf id 0 1 (1 / 2) [5] = triangularfSpec id 0 1 (1 / 2) [5] :=
  ⟨by norm_num, by norm_num, by norm_num,
    C4_triangularf_steps id 0 1 (1 / 2) (by norm_num) (by norm_num) (by norm_num) [5]⟩

-- C5

/-- C5: `uniformFrom` on the empty collection fails the non-emptiness
assertion; on a single-element collection it always returns that element; and
on every non-empty collection it returns the element at the offset drawn by
`uniform(size - 1)` (a uniform draw over `[0, size-1]`), which is always an
element of the collection. -/
theorem C5_uniformFrom {α : Type} (l : List α) (g : Generator) :
    (RandomBase.uniformFrom ([] : List α) g = SampleResult.assertEmptyFailed) ∧
    (∀ x : α, RandomBase.uniformFrom [x] g = SampleResult.ok x (nextRaw g).2) ∧
    (l ≠ [] →
      ∃ x : α,
        l[(RandomBase.uniformTo (l.length - 1) g).1]? = some x ∧
        RandomBase.uniformFrom l g =
          SampleResult.ok x (RandomBase.uniformTo (l.length - 1) g).2 ∧
        x ∈ l) := by
  refine ⟨rfl, ?_, ?_⟩
  · intro x
    show RandomBase.uniformFrom [x] g = SampleResult.ok x (nextRaw g).2
    unfold RandomBase.uniformFrom RandomBase.uniformTo uniform_int_distributionU
    simp [Nat.mod_one]
  · intro h
    have hlen : 0 < l.length := List.length_pos.mpr h
    have hofs : (RandomBase.uniformTo (l.length - 1) g).1 < l.length := by
      have := uniformTo_fst_le (l.length - 1) g
      omega
    refine ⟨l[(RandomBase.uniformTo (l.length - 1) g).1], ?_, ?_, ?_⟩
    · exact List.getElem?_eq_getElem hofs
    · unfold RandomBase.uniformFrom
      rw [if_neg (by simpa [List.isEmpty_iff] using h)]
      rw [List.getElem?_eq_getElem hofs]
    · exact List.getElem_mem hofs

/-- C5, witness for `C5_uniformFrom` at the collection `[10, 20]`. -/
theorem C5_uniformFrom_witness :
    ([10, 20] : List ℤ) ≠ [] ∧
    ∃ x : ℤ,
      ([10, 20] : List ℤ)[(RandomBase.uniformTo (([10, 20] : List ℤ).length - 1) [1]).1]? =
        some x ∧
      RandomBase.uniformFrom ([10, 20] : List ℤ) [1] =
        SampleResult.ok x (RandomBase.uniformTo (([10, 20] : List ℤ).length - 1) [1]).2 ∧
      x ∈ ([10, 20] : List ℤ) :=
  ⟨by decide, (C5_uniformFrom ([10, 20] : List ℤ) [1]).2.2 (by decide)⟩

-- C7

/-- C7: with weights `[1, 0, 0]` over a three-element collection `[x, y, z]`,
`weightedFrom` returns the first element `x` on every generator state: a
zero-weight element is never selected. -/
theorem C7_weightedFrom_zero_weights (x y z : ℤ) (g : Generator) :
    RandomBase.weightedFrom [1, 0, 0] [x, y, z] g = SampleResult.ok x (nextRaw g).2 := by
  unfold RandomBase.weightedFrom discrete_distribution
  have hu : (((nextRaw g).1 : ℚ) / (rawModulus : ℚ)) * ([1, 0, 0] : List ℚ).sum < 1 := by
    have h1 : (((nextRaw g).1 : ℚ)) < (rawModulus : ℚ) := by exact_mod_cast nextRaw_fst_lt g
    have hsum : ([1, 0, 0] : List ℚ).sum = 1 := by norm_num
    rw [hsum, mul_one, div_lt_one (by norm_num [rawModulus])]
    exact h1
  simp only [discretePick, if_pos hu]
  rfl

-- C8

/-- C8: invoking the server generator provider (which has no prior external
seeding) always fires the assertion, and in non-fatal builds construction
still proceeds, returning a generator auto-seeded from the entropy source. -/
theorem C8_server_generator (fatalBuild : Bool) (entropySeed : Nat) :
    (ServerRandomTraits.generator fatalBuild entropySeed).assertionFired = true ∧
    (fatalBuild = false →
      (ServerRandomTraits.generator fatalBuild entropySeed).generatorRef =
        some (mt19937_64_seeded entropySeed)) := by
  unfold ServerRandomTraits.generator
  cases fatalBuild <;> simp

/-- C8, witness for `C8_server_generator` in a non-fatal build with entropy
draw 42. -/
theorem C8_server_generator_witness :
    (ServerRandomTraits.generator false 42).assertionFired = true ∧
    (ServerRandomTraits.generator false 42).generatorRef = some (mt19937_64_seeded 42) :=
  ⟨(C8_server_generator false 42).1, (C8_server_generator false 42).2 rfl⟩

-- C9

/-- C9: every sampling operation of the class — the three `uniform` overloads,
`probability`, the three `uniformf` overloads, `probabilityf`, `yesNo`,
`normalf`, `uniformFrom`, `weightedFrom`, `shuffle`, and `triangularf` — is
deterministic in its arguments and the supplied generator state: two runs from
identical generator states produce identical results (value and final
generator state alike). -/
theorem C9_determinism (g1 g2 : Generator) (h : g1 = g2) (tmax lo hi : ℤ) (n : Nat)
    (sqrtf nextafterf : ℚ → ℚ) (normalDist : ℚ → ℚ → Generator → ℚ × Generator)
    (a b c qlo qhi mean stddev : ℚ) (w : List ℚ) (l : List ℤ) (arr : Array ℤ) :
    RandomBase.uniform tmax g1 = RandomBase.uniform tmax g2 ∧
    RandomBase.uniformTo n g1 = RandomBase.uniformTo n g2 ∧
    RandomBase.uniformRange lo hi g1 = RandomBase.uniformRange lo hi g2 ∧
    RandomBase.probability g1 = RandomBase.probability g2 ∧
    RandomBase.uniformf g1 = RandomBase.uniformf g2 ∧
    RandomBase.uniformfTo nextafterf qhi g1 = RandomBase.uniformfTo nextafterf qhi g2 ∧
    RandomBase.uniformfRange qlo qhi g1 = RandomBase.uniformfRange qlo qhi g2 ∧
    RandomBase.probabilityf nextafterf g1 = RandomBase.probabilityf nextafterf g2 ∧
    RandomBase.yesNo g1 = RandomBase.yesNo g2 ∧
    RandomBase.normalf normalDist mean stddev g1 =
      RandomBase.normalf normalDist mean stddev g2 ∧
    RandomBase.uniformFrom l g1 = RandomBase.uniformFrom l g2 ∧
    RandomBase.weightedFrom w l g1 = RandomBase.weightedFrom w l g2 ∧
    RandomBase.shuffle arr g1 = RandomBase.shuffle arr g2 ∧
    RandomBase.triangularf sqrtf a b c g1 = RandomBase.triangularf sqrtf a b c g2 := by
  subst h
  exact ⟨rfl, rfl, rfl, rfl, rfl, rfl, rfl, rfl, rfl, rfl, rfl, rfl, rfl, rfl⟩

/-- C9, witness for `C9_determinism` at a concrete state and arguments for
all fourteen operations. -/
theorem C9_determinism_witness :
    RandomBase.uniform 7 [3] = RandomBase.uniform 7 [3] ∧
    RandomBase.uniformTo 4 [3] = RandomBase.uniformTo 4 [3] ∧
    RandomBase.uniformRange 0 5 [3] = RandomBase.uniformRange 0 5 [3] ∧
    RandomBase.probability [3] = RandomBase.probability [3] ∧
    RandomBase.uniformf [3] = RandomBase.uniformf [3] ∧
    RandomBase.uniformfTo id 2 [3] = RandomBase.uniformfTo id 2 [3] ∧
    RandomBase.uniformfRange 0 2 [3] = RandomBase.uniformfRange 0 2 [3] ∧
    RandomBase.probabilityf id [3] = RandomBase.probabilityf id [3] ∧
    RandomBase.yesNo [3] = RandomBase.yesNo [3] ∧
    RandomBase.normalf constantNormal 0 1 [3] = RandomBase.normalf constantNormal 0 1 [3] ∧
    RandomBase.uniformFrom ([8, 9] : List ℤ) [3] = RandomBase.uniformFrom ([8, 9] : List ℤ) [3] ∧
    RandomBase.weightedFrom [1, 0] ([8, 9] : List ℤ) [3] =
      RandomBase.weightedFrom [1, 0] ([8, 9] : List ℤ) [3] ∧
    RandomBase.shuffle (#[1, 2, 3] : Array ℤ) [3] =
      RandomBase.shuffle (#[1, 2, 3] : Array ℤ) [3] ∧
    RandomBase.triangularf id 0 1 (1 / 2) [3] = RandomBase.triangularf id 0 1 (1 / 2) [3] :=
  C9_determinism [3] [3] rfl 7 0 5 4 id id constantNormal 0 1 (1 / 2) 0 2 0 1
    [1, 0] ([8, 9] : List ℤ) (#[1, 2, 3] : Array ℤ)

-- C10

/-- C10: once the non-emptiness assertion of `uniformFrom` has passed, the
drawn offset satisfies `offset <= size - 1`, so the iterator-advance never
reaches `end()` and the second assertion can never fire. -/
theorem C10_end_assert_unreachable {α : Type} (l : List α) (g : Generator)
    (h : l ≠ []) :
    (RandomBase.uniformTo (l.length - 1) g).1 ≤ l.length - 1 ∧
    RandomBase.uniformFrom l g ≠ SampleResult.assertEndFailed := by
  have hlen : 0 < l.length := List.length_pos.mpr h
  have hofs : (RandomBase.uniformTo (l.length - 1) g).1 < l.length := by
    have := uniformTo_fst_le (l.length - 1) g
    omega
  refine ⟨uniformTo_fst_le (l.length - 1) g, ?_⟩
  unfold RandomBase.uniformFrom
  rw [if_neg (by simpa [List.isEmpty_iff] using h)]
  rw [List.getElem?_eq_getElem hofs]
  simp

/-- C10, witness for `C10_end_assert_unreachable` at the collection
`[1, 2, 3]`. -/
theorem C10_end_assert_unreachable_witness :
    (RandomBase.uniformTo (([1, 2, 3] : List ℤ).length - 1) [7]).1 ≤
      ([1, 2, 3] : List ℤ).length - 1 ∧
    RandomBase.uniformFrom ([1, 2, 3] : List ℤ) [7] ≠ SampleResult.assertEndFailed :=
  C10_end_assert_unreachable ([1, 2, 3] : List ℤ) [7] (by decide)
